import Mathlib

/-!
# Verification of the hall-sensor RPM counter sketch

Shallow embedding of `hall-sensor-rpm-with-display.ino`.

The sketch keeps a 5-slot ring of edge timestamps written by an interrupt
handler, estimates RPM from a snapshot of the ring in the main loop, and
multiplexes a 4-digit 7-segment display one digit per loop iteration.

Machine integers are modelled as `Nat`/`Int` with explicit 32-bit signed
wrapping where the C code casts `unsigned long` to `long`.  The C float
expression `(int)((revs / (timeDiff / 1000.0)) * 60.0)` is modelled at the
IEEE-754 binary32 level (on AVR `float` and `double` are both 32 bits):
each conversion, division and multiplication rounds to nearest, ties to
even, over normalized significand/exponent pairs, and the final cast
truncates toward zero.  A division by zero (`timeDiff == 0`, float infinity
cast to int, undefined on AVR) and an out-of-`int`-range cast (result
≥ 2^15 on the 16-bit AVR `int`, undefined) are modelled as `none`.
-/

/-- `const unsigned long MAX_STAMP_AGE = 6000;` (ms). -/
def MAX_STAMP_AGE : Nat := 6000

/-- `const int MAX_STAMPS = 5;` (ring capacity). -/
def MAX_STAMPS : Nat := 5

/-- Value of a C `long` (32-bit signed on AVR) holding the bit pattern of the
given value: reduce modulo 2^32 into `[-2^31, 2^31)`. -/
def int32 (x : Int) : Int := (x + 2 ^ 31) % 2 ^ 32 - 2 ^ 31

/-- `unsigned long tsDiff = abs((long)curTime - (long)(ts[i]));` — the signed
difference wraps at 32 bits (gcc wrapping behaviour), `abs` is the Arduino
macro, and conversion of the result back to `unsigned long` coincides with
`Int.natAbs` (also at the `-2^31` corner). -/
def tsAge (curTime t : Nat) : Nat :=
  (int32 (int32 curTime - int32 t)).natAbs

/-- The loop-body test `tsDiff < MAX_STAMP_AGE` deciding whether slot value
`t` is counted as a data point at time `curTime`. -/
def validStamp (curTime t : Nat) : Bool :=
  tsAge curTime t < MAX_STAMP_AGE

/-- The `low` update of one loop iteration:
`if ((low == 0) || ts[i] <= low) low = ts[i];`. -/
def lowStep (low t : Nat) : Nat :=
  if low = 0 ∨ t ≤ low then t else low

/-- The `high` update of one loop iteration:
`if (ts[i] > high) high = ts[i];`. -/
def maxStep (high t : Nat) : Nat :=
  if t > high then t else high

/-- The scan accumulator of `calculateRPM`'s filtering loop:
`low`, `high`, `datapoints`. -/
structure ScanState where
  low : Nat
  high : Nat
  datapoints : Nat
  deriving DecidableEq

/-- One iteration of the `for (i = 0; i < MAX_STAMPS; i++)` filtering loop of
`calculateRPM` (lines 115–126 of the sketch). -/
def scanStep (curTime : Nat) (s : ScanState) (t : Nat) : ScanState :=
  if validStamp curTime t then
    ⟨lowStep s.low t, maxStep s.high t, s.datapoints + 1⟩
  else s

/-- The whole filtering loop, started from `low = 0; high = 0; datapoints = 0`,
run over the snapshot `ts` of the timestamp ring. -/
def scanTimestamps (curTime : Nat) (ts : List Nat) : ScanState :=
  ts.foldl (scanStep curTime) ⟨0, 0, 0⟩

/-- Fuel-driven binary logarithm: `lg2go fuel n` counts the halvings of `n`
down to below 2; with `fuel = n` it computes `⌊log2 n⌋` for `n ≥ 1`. -/
def lg2go : Nat → Nat → Nat
  | 0, _ => 0
  | fuel + 1, n => if 2 ≤ n then lg2go fuel (n / 2) + 1 else 0

/-- `⌊log2 n⌋` (0 at 0). -/
def lg2 (n : Nat) : Nat := lg2go n n

/-- Round the positive ratio `p / q` to IEEE-754 binary32 (single precision,
round to nearest, ties to even), returned as a normalized pair `(m, e)` of
value `m * 2^e` with `2^23 ≤ m < 2^24` (and `(0, 0)` for a zero numerator or
denominator).  `k = ⌊log2 (p/q)⌋`: the candidate `a - b` from the two
operands' logarithms (`p/q ∈ (2^(a-b-1), 2^(a-b+1))`), corrected downward
unless `2^(a-b) ≤ p/q`, i.e. `2^a * q ≤ p * 2^b`.  The 24-bit significand
is the correctly rounded value of `(p/q) * 2^(23-k)`, computed from the
exact integer quotient and remainder; a carry to `2^24` renormalizes.
Subnormal and infinite results are outside the range exercised by this
sketch and are not modelled. -/
def rnd32 (p q : Nat) : Nat × Int :=
  if p = 0 ∨ q = 0 then (0, 0)
  else
    let a := lg2 p
    let b := lg2 q
    let k : Int := if 2 ^ a * q ≤ p * 2 ^ b then (a : Int) - b else ((a : Int) - b) - 1
    let t : Int := 23 - k
    let N := if 0 ≤ t then p * 2 ^ t.toNat else p
    let D := if 0 ≤ t then q else q * 2 ^ (-t).toNat
    let m0 := N / D
    let r := N % D
    let m := if 2 * r < D then m0
      else if D < 2 * r then m0 + 1
      else if m0 % 2 = 0 then m0 else m0 + 1
    if m = 2 ^ 24 then (2 ^ 23, k - 22) else (m, k - 23)

/-- Conversion of a nonnegative integer to binary32 (the C `int` /
`unsigned long` to `float` conversion; exact below `2^24`, rounded to
nearest even above). -/
def f32ofNat (n : Nat) : Nat × Int := rnd32 n 1

/-- binary32 division: the quotient of the significands is correctly
rounded, the exponents subtract exactly. -/
def f32div (x y : Nat × Int) : Nat × Int :=
  let r := rnd32 x.fst y.fst
  (r.fst, r.snd + x.snd - y.snd)

/-- binary32 multiplication: the product of the significands is correctly
rounded, the exponents add exactly. -/
def f32mul (x y : Nat × Int) : Nat × Int :=
  let r := rnd32 (x.fst * y.fst) 1
  (r.fst, r.snd + x.snd + y.snd)

/-- Truncation toward zero of a nonnegative binary32 value to an unsigned
integer (the C `(int)` cast, for in-range values). -/
def f32trunc (x : Nat × Int) : Nat :=
  if 0 ≤ x.snd then x.fst * 2 ^ x.snd.toNat else x.fst / 2 ^ (-x.snd).toNat

/-- `int calculateRPM()`, applied to the snapshot `ts` it takes of the ring
and the `curTime = millis()` it reads.  The float chain
`float rps = revs / (timeDiff / 1000.0); rpm = (int)(rps * 60.0);` is
modelled operation by operation in binary32 (`f32ofNat`/`f32div`/`f32mul`
round each step to nearest-even exactly as the AVR's 32-bit `float`/
`double` do), then truncated toward zero.  `none` models undefined
behaviour: `timeDiff == 0` gives `revs / 0.0` (float infinity) cast to
`int`, and a result not representable in the 16-bit AVR `int` is likewise
an undefined float-to-int cast. -/
def calculateRPM (ts : List Nat) (curTime : Nat) : Option Int :=
  let s := scanTimestamps curTime ts
  if s.datapoints > 1 then
    let timeDiff := s.high - s.low
    if timeDiff = 0 then none
    else
      let rps := f32div (f32ofNat (s.datapoints - 1))
        (f32div (f32ofNat timeDiff) (f32ofNat 1000))
      let r := f32trunc (f32mul rps (f32ofNat 60))
      if r < 32768 then some (r : Int) else none
  else some 0

/-- `unsigned char CharBitMap[]`: (character code, segment byte) pairs; the
`0, 0` end-of-sequence marker is represented by the end of the list.  The
display is active-low: a set bit is a dark segment, so `' '` ↦ `0xff` is
all-off and `0x00` is all segments lit. -/
def CharBitMap : List (Nat × Nat) :=
  [ (48, 0xC0), (49, 0xF9), (50, 0xA4), (51, 0xB0), (52, 0x99),
    (53, 0x92), (54, 0x82), (55, 0xF8), (56, 0x80), (57, 0x90),
    (65, 0x88), (98, 0x83), (67, 0xC6), (100, 0xA1), (69, 0x86),
    (70, 0x8e), (80, 0x8c), (45, 0xbf), (99, 0xa7), (32, 0xff) ]

/-- The inner `while (*bm)` search of `SetupDigits`: scan the table for the
character `c`; `i` starts at `0` and keeps that value when no entry
matches. -/
def lookupBitmap : List (Nat × Nat) → Nat → Nat
  | [], _ => 0
  | (ch, bm) :: rest, c => if ch = c then bm else lookupBitmap rest c

/-- The outer `while (*p)` loop of `SetupDigits`, writing one byte per input
character through `*dispBM++` into the buffer, starting at index `i`.  The
returned pair is the final buffer contents and the trace of `(index, byte)`
writes in the order they are performed; `none` models the write running past
the end of the 4-byte `DisplayBM` buffer (undefined behaviour). -/
def SetupDigitsGo : Nat → List Nat → List Nat → Option (List Nat × List (Nat × Nat))
  | _, [], buf => some (buf, [])
  | i, c :: s, _ :: buf =>
    match SetupDigitsGo (i + 1) s buf with
    | none => none
    | some (r, w) =>
      some (lookupBitmap CharBitMap c :: r, (i, lookupBitmap CharBitMap c) :: w)
  | _, _ :: _, [] => none

/-- `void SetupDigits(char *s)` acting on the 4-byte buffer `DisplayBM`. -/
def SetupDigits (s buf : List Nat) : Option (List Nat × List (Nat × Nat)) :=
  SetupDigitsGo 0 s buf

/-- The four ASCII digit codes of `n` zero-padded to width 4 (for
`n < 10000`). -/
def natDigits4 (n : Nat) : List Nat :=
  [48 + n / 1000 % 10, 48 + n / 100 % 10, 48 + n / 10 % 10, 48 + n % 10]

/-- `sprintf(displayString, "%.4d", rpm)` into `char displayString[5]`: for
`0 ≤ rpm < 10000` this is the zero-padded 4-character decimal; any other
value needs at least 5 characters plus the terminator and overflows the
5-byte buffer (undefined behaviour), modelled as `none`. -/
def sprintfDot4 (v : Int) : Option (List Nat) :=
  if 0 ≤ v ∧ v < 10000 then some (natDigits4 v.toNat) else none

/-- The main-loop state owned by the sketch between iterations: `oldRpm`,
the `DisplayBM` buffer, and the byte `__curCharacter`. -/
structure LoopState where
  oldRpm : Int
  displayBM : List Nat
  cursor : Nat
  deriving DecidableEq

/-- One iteration of the `while (1)` body of `loop()` given the freshly
computed `rpm`.  Returns the next state, the list of console lines printed
(`Serial.print("rpm: "); Serial.println(rpm);` forms one line), and the
number of `SetupDigits` render calls performed.  The final `DisplayDigits()`
advances the byte cursor in every iteration. -/
def loopBody (rpm : Int) (st : LoopState) : Option (LoopState × List String × Nat) :=
  if rpm = st.oldRpm then
    some (⟨st.oldRpm, st.displayBM, (st.cursor + 1) % 256⟩, [], 0)
  else
    match sprintfDot4 rpm with
    | none => none
    | some s =>
      match SetupDigits s st.displayBM with
      | none => none
      | some r =>
        some (⟨rpm, r.fst, (st.cursor + 1) % 256⟩,
              ["rpm: " ++ toString rpm], 1)

/-- `void DisplayDigits()`: emits the single pair
`(DisplayBM[__curCharacter % 4], 4 - __curCharacter % 4)` to
`DisplayDigitBitmap` and post-increments the byte `__curCharacter`. -/
def DisplayDigits (buf : List Nat) (c : Nat) : (Nat × Nat) × Nat :=
  ((buf.getD (c % 4) 0, 4 - c % 4), (c + 1) % 256)

/-- The emission trace of `n` consecutive `DisplayDigits()` calls starting
from cursor `c`. -/
def tickTrace (buf : List Nat) : Nat → Nat → List (Nat × Nat)
  | 0, _ => []
  | n + 1, c => (DisplayDigits buf c).fst :: tickTrace buf n (DisplayDigits buf c).snd

/-- The effective display positions (`cursor mod 4`) visited by `n`
consecutive `DisplayDigits()` calls starting from cursor `c`. -/
def posTrace : Nat → Nat → List Nat
  | 0, _ => []
  | n + 1, c => c % 4 :: posTrace n ((c + 1) % 256)

/-- The shared ring state: `volatile unsigned long timestamps[MAX_STAMPS]`
and `volatile short int curTimestampPos`. -/
structure TimestampRing where
  slots : List Nat
  pos : Nat
  deriving DecidableEq

/-- `void rpmInterrupt(void)`: store the current time at the write cursor and
post-increment it, wrapping at `MAX_STAMPS`. -/
def rpmInterrupt (r : TimestampRing) (t : Nat) : TimestampRing :=
  ⟨r.slots.set r.pos t, if r.pos + 1 ≥ MAX_STAMPS then 0 else r.pos + 1⟩

/-- A burst of interrupt arrivals applied in order. -/
def applyRecords (r : TimestampRing) (ts : List Nat) : TimestampRing :=
  ts.foldl rpmInterrupt r

/-- The snapshot copy loop `for (i = 0; i < MAX_STAMPS; i++) ts[i] = timestamps[i];`
of `calculateRPM`, under an interleaving semantics: `sched` lists, for each
gap following a read, the interrupt arrivals scheduled there.  When `masked`
is `true` (the code brackets the copy in `noInterrupts()`/`interrupts()`)
no scheduled arrival can mutate the ring during the copy; when `false` each
burst fires in its gap. -/
def snapshotGo (masked : Bool) : Nat → Nat → TimestampRing → List (List Nat) → List Nat
  | 0, _, _, _ => []
  | n + 1, i, r, sched =>
    r.slots.getD i 0 ::
      snapshotGo masked n (i + 1)
        (if masked then r else applyRecords r (sched.headD [])) sched.tail

/-- The full 5-slot snapshot copy starting at index 0. -/
def snapshotRun (masked : Bool) (r : TimestampRing) (sched : List (List Nat)) : List Nat :=
  snapshotGo masked MAX_STAMPS 0 r sched

/-- Modelled from the spec: `rpm = round(revolutions / elapsedSeconds * 60)`
with `revolutions = count - 1` and `elapsedSeconds = (high - low) / 1000`,
round-to-nearest evaluated on the exact rational as
`(2 * revs * 60000 + d) / (2 * d)` with `d = high - low`. -/
def rpmRoundedSpec (count lo hi : Nat) : Nat :=
  (2 * ((count - 1) * 60000) + (hi - lo)) / (2 * (hi - lo))

/-! ## Lemmas about the filtering loop of `calculateRPM` -/

theorem maxStep_eq_max (h t : Nat) : maxStep h t = max h t := by
  unfold maxStep
  rcases Nat.lt_or_ge h t with hc | hc
  · rw [if_pos hc, Nat.max_eq_right (Nat.le_of_lt hc)]
  · rw [if_neg (by omega), Nat.max_eq_left hc]

theorem scan_foldl_eq (now : Nat) (ts : List Nat) (s : ScanState) :
    ts.foldl (scanStep now) s =
      ⟨(ts.filter (validStamp now)).foldl lowStep s.low,
       (ts.filter (validStamp now)).foldl maxStep s.high,
       s.datapoints + (ts.filter (validStamp now)).length⟩ := by
  induction ts generalizing s with
  | nil => rfl
  | cons t ts ih =>
    by_cases hv : validStamp now t
    · have hsc : scanStep now s t = ⟨lowStep s.low t, maxStep s.high t, s.datapoints + 1⟩ := by
        unfold scanStep; rw [if_pos hv]
      have hf : (t :: ts).filter (validStamp now) = t :: ts.filter (validStamp now) := by
        rw [List.filter_cons, if_pos hv]
      rw [List.foldl_cons, ih, hsc, hf]
      simp only [List.foldl_cons, List.length_cons, ScanState.mk.injEq]
      refine ⟨trivial, trivial, ?_⟩
      omega
    · have hsc : scanStep now s t = s := by
        unfold scanStep; rw [if_neg hv]
      have hf : (t :: ts).filter (validStamp now) = ts.filter (validStamp now) := by
        rw [List.filter_cons, if_neg hv]
      rw [List.foldl_cons, hsc, ih, hf]

theorem le_foldl_max (l : List Nat) (a : Nat) : a ≤ l.foldl max a := by
  induction l generalizing a with
  | nil => simp
  | cons t l ih => exact le_trans (Nat.le_max_left a t) (ih (max a t))

theorem mem_le_foldl_max (l : List Nat) : ∀ a v, v ∈ l → v ≤ l.foldl max a := by
  induction l with
  | nil => intro a v hv; cases hv
  | cons t l ih =>
    intro a v hv
    rw [List.foldl_cons]
    rcases List.mem_cons.mp hv with rfl | h
    · exact le_trans (Nat.le_max_right a v) (le_foldl_max l (max a v))
    · exact ih (max a t) v h

theorem foldl_max_mem (l : List Nat) : ∀ a, l.foldl max a = a ∨ l.foldl max a ∈ l := by
  induction l with
  | nil => intro a; left; rfl
  | cons t l ih =>
    intro a
    rw [List.foldl_cons]
    rcases ih (max a t) with h | h
    · rw [h]
      rcases Nat.le_total a t with hc | hc
      · right; rw [Nat.max_eq_right hc]; exact List.mem_cons_self t l
      · left; rw [Nat.max_eq_left hc]
    · right; exact List.mem_cons_of_mem _ h

theorem foldl_max_le (l : List Nat) :
    ∀ a b, a ≤ b → (∀ v ∈ l, v ≤ b) → l.foldl max a ≤ b := by
  induction l with
  | nil => intro a b hab _; exact hab
  | cons t l ih =>
    intro a b hab hl
    rw [List.foldl_cons]
    exact ih _ b (Nat.max_le.mpr ⟨hab, hl t (List.mem_cons_self t l)⟩)
      fun v hv => hl v (List.mem_cons_of_mem _ hv)

theorem lowStep_cases (a t : Nat) : lowStep a t = t ∨ lowStep a t = a := by
  unfold lowStep
  split
  · left; rfl
  · right; rfl

theorem lowStep_le_left (a t : Nat) (ha : 0 < a) : lowStep a t ≤ a := by
  unfold lowStep
  by_cases h : a = 0 ∨ t ≤ a
  · rw [if_pos h]; rcases h with h | h
    · omega
    · exact h
  · rw [if_neg h]

theorem lowStep_le_right (a t : Nat) : lowStep a t ≤ t := by
  unfold lowStep
  by_cases h : a = 0 ∨ t ≤ a
  · rw [if_pos h]
  · rw [if_neg h]; push_neg at h; omega

theorem foldl_lowStep_spec (l : List Nat) :
    ∀ a, 0 < a → (∀ v ∈ l, 0 < v) →
      (l.foldl lowStep a ∈ a :: l) ∧ ∀ v ∈ a :: l, l.foldl lowStep a ≤ v := by
  induction l with
  | nil =>
    intro a _ _
    refine ⟨List.mem_cons_self _ _, ?_⟩
    intro v hv
    rcases List.mem_cons.mp hv with rfl | h
    · exact Nat.le_refl _
    · cases h
  | cons t l ih =>
    intro a ha hl
    have ht : 0 < t := hl t (List.mem_cons_self _ _)
    have hl' : ∀ v ∈ l, 0 < v := fun v hv => hl v (List.mem_cons_of_mem _ hv)
    have hpos : 0 < lowStep a t := by
      rcases lowStep_cases a t with h | h <;> omega
    obtain ⟨hmem, hbound⟩ := ih (lowStep a t) hpos hl'
    rw [List.foldl_cons]
    constructor
    · rcases List.mem_cons.mp hmem with he | hm
      · rcases lowStep_cases a t with h | h
        · rw [he, h]; exact List.mem_cons_of_mem _ (List.mem_cons_self _ _)
        · rw [he, h]; exact List.mem_cons_self _ _
      · exact List.mem_cons_of_mem _ (List.mem_cons_of_mem _ hm)
    · intro v hv
      have hres : l.foldl lowStep (lowStep a t) ≤ lowStep a t :=
        hbound _ (List.mem_cons_self _ _)
      rcases List.mem_cons.mp hv with he | hv'
      · rw [he]; exact le_trans hres (lowStep_le_left a t ha)
      · rcases List.mem_cons.mp hv' with he | hv''
        · rw [he]; exact le_trans hres (lowStep_le_right a t)
        · exact hbound _ (List.mem_cons_of_mem _ hv'')

theorem foldl_lowStep_zero (l : List Nat) (hne : l ≠ []) (hp : ∀ v ∈ l, 0 < v) :
    (l.foldl lowStep 0 ∈ l) ∧ ∀ v ∈ l, l.foldl lowStep 0 ≤ v := by
  match l, hne with
  | t :: l', _ =>
    have ht : 0 < t := hp t (List.mem_cons_self _ _)
    have hstep : lowStep 0 t = t := by unfold lowStep; rw [if_pos (Or.inl rfl)]
    rw [List.foldl_cons, hstep]
    exact foldl_lowStep_spec l' t ht fun v hv => hp v (List.mem_cons_of_mem _ hv)

theorem scan_datapoints (now : Nat) (ts : List Nat) :
    (scanTimestamps now ts).datapoints = ts.countP (validStamp now) := by
  unfold scanTimestamps
  rw [scan_foldl_eq, List.countP_eq_length_filter]
  simp

/-! ## Claim theorems for the RPM estimator -/

/-- C1: the claim demands RPM = 0 when at least two slots are valid and all
valid timestamps are equal.  The code instead evaluates
`revs / (timeDiff / 1000.0)` with `timeDiff == 0` — a float division by zero
producing infinity, whose cast to `int` is undefined (`none`): on the ring
`{5000,5000,5000,5000,5000}` with `now = 5000` all five slots are valid and
`high - low = 0`, and `calculateRPM` does not return 0. -/
theorem calculateRPM_all_equal_stamps_undefined :
    calculateRPM [5000, 5000, 5000, 5000, 5000] 5000 = none ∧
    ([5000, 5000, 5000, 5000, 5000].countP (validStamp 5000) = 5) := by
  constructor
  · decide
  · decide

/-- C2 (counterexample): at `now = 100` the all-zero startup ring has all
five never-written slots counted as data points (`|100 - 0| = 100 < 6000`),
contradicting the claim that zero-valued never-written slots are never
counted. -/
theorem zero_slots_counted_at_startup :
    (scanTimestamps 100 [0, 0, 0, 0, 0]).datapoints = 5 ∧ (5 : Nat) ≠ 0 := by
  constructor
  · decide
  · decide

/-- C2 (amended): a slot value `t` is counted as a data point exactly when
its 32-bit-signed absolute age `|now - t|` is strictly below
`MAX_STAMP_AGE`; the zero-fill sentinel is NOT excluded from the count (it
only acts as the "unset" marker of the running `low` tracker). -/
theorem datapoints_eq_count_fresh (now : Nat) (ts : List Nat) :
    (scanTimestamps now ts).datapoints =
      ts.countP fun t => decide (tsAge now t < MAX_STAMP_AGE) := by
  rw [scan_datapoints]
  rfl

/-- C3: whenever fewer than two slots are within `MAX_STAMP_AGE` of `now`
(in particular when `now` has advanced more than `MAX_STAMP_AGE` past every
stored timestamp), `calculateRPM` returns 0. -/
theorem calculateRPM_insufficient_data_zero (ts : List Nat) (now : Nat)
    (h : ts.countP (validStamp now) < 2) : calculateRPM ts now = some 0 := by
  have hd : (scanTimestamps now ts).datapoints < 2 := by
    rw [scan_datapoints]; exact h
  unfold calculateRPM
  simp only []
  rw [if_neg (by omega)]

theorem calculateRPM_insufficient_data_zero_witness :
    ([1000, 2000, 3000, 4000, 5000].countP (validStamp 20000) < 2) ∧
    calculateRPM [1000, 2000, 3000, 4000, 5000] 20000 = some 0 :=
  ⟨by decide, calculateRPM_insufficient_data_zero _ _ (by decide)⟩

/-- C4: on the ring `{1000, 1500, 2000, 2500, 3000}` at `now = 3000` all
five slots are valid, `low = 1000`, `high = 3000`, `revolutions = 4`,
elapsed milliseconds `= 2000` (2.0 s), and the returned RPM is 120. -/
theorem calculateRPM_example_120 :
    calculateRPM [1000, 1500, 2000, 2500, 3000] 3000 = some 120 ∧
    (scanTimestamps 3000 [1000, 1500, 2000, 2500, 3000]).datapoints = 5 ∧
    (scanTimestamps 3000 [1000, 1500, 2000, 2500, 3000]).low = 1000 ∧
    (scanTimestamps 3000 [1000, 1500, 2000, 2500, 3000]).high = 3000 ∧
    (scanTimestamps 3000 [1000, 1500, 2000, 2500, 3000]).datapoints - 1 = 4 ∧
    (scanTimestamps 3000 [1000, 1500, 2000, 2500, 3000]).high -
      (scanTimestamps 3000 [1000, 1500, 2000, 2500, 3000]).low = 2000 := by
  refine ⟨?_, ?_, ?_, ?_, ?_, ?_⟩ <;> decide

/-- C5 (counterexample): with valid slots `{1000, 1900}` at `now = 1900`
(the other three slots are stale), the exact value is
`1 / 0.9 * 60 = 66.67`: the spec formula `round(...)` yields 67, but the
binary32 evaluation truncates to `int` and the code returns 66.  A second
divergence: with valid slots `{1000, 1002}` the exact value is 30000
(`round` also gives 30000), but the three float roundings leave
`29999.998046875`, truncated to 29999 — the returned RPM is not even the
exact-arithmetic truncation, let alone the rounding. -/
theorem calculateRPM_not_round_to_nearest :
    calculateRPM [1000, 1900, 20000, 20000, 20000] 1900 = some 66 ∧
    ([1000, 1900, 20000, 20000, 20000].countP (validStamp 1900) = 2) ∧
    rpmRoundedSpec 2 1000 1900 = 67 ∧ (66 : Int) ≠ 67 ∧
    calculateRPM [1000, 1002, 20000, 20000, 20000] 1002 = some 29999 ∧
    rpmRoundedSpec 2 1000 1002 = 30000 := by
  refine ⟨?_, ?_, ?_, ?_, ?_, ?_⟩ <;> decide

/-- C5 (amended): for a ring whose valid slots are all nonzero, number at
least two, and have minimum `lo` and maximum `hi` with `lo < hi`, the
returned RPM is the truncation toward zero of the single-precision
(binary32, round-to-nearest-even) evaluation of
`(count - 1) / ((hi - lo) / 1000.0) * 60.0` — NOT the rounding to nearest
of the exact value (66 is returned where the exact value is 66.67), and,
because each float operation rounds, possibly one below the exact
truncation (29999 is returned where the exact value is 30000) — provided
the result fits the 16-bit `int`. -/
theorem calculateRPM_formula_float (ts : List Nat) (now lo hi : Nat)
    (hpos : ∀ v ∈ ts.filter (validStamp now), 0 < v)
    (hcount : 2 ≤ (ts.filter (validStamp now)).length)
    (hlo : lo ∈ ts.filter (validStamp now))
    (hhi : hi ∈ ts.filter (validStamp now))
    (hbounds : ∀ v ∈ ts.filter (validStamp now), lo ≤ v ∧ v ≤ hi)
    (hlt : lo < hi)
    (hrange : f32trunc (f32mul (f32div (f32ofNat ((ts.filter (validStamp now)).length - 1))
      (f32div (f32ofNat (hi - lo)) (f32ofNat 1000))) (f32ofNat 60)) < 32768) :
    calculateRPM ts now =
      some ((f32trunc (f32mul (f32div (f32ofNat ((ts.filter (validStamp now)).length - 1))
        (f32div (f32ofNat (hi - lo)) (f32ofNat 1000))) (f32ofNat 60)) : Int)) := by
  have hne : ts.filter (validStamp now) ≠ [] := by
    intro h; rw [h] at hcount; simp at hcount
  obtain ⟨hmem, hlb⟩ := foldl_lowStep_zero (ts.filter (validStamp now)) hne hpos
  have hlow : (ts.filter (validStamp now)).foldl lowStep 0 = lo :=
    Nat.le_antisymm (hlb lo hlo) (hbounds _ hmem).1
  have hmax : (ts.filter (validStamp now)).foldl maxStep 0 = hi := by
    have hms : maxStep = max := funext fun a => funext fun b => maxStep_eq_max a b
    rw [hms]
    exact Nat.le_antisymm
      (foldl_max_le _ 0 hi (Nat.zero_le hi) fun v hv => (hbounds v hv).2)
      (mem_le_foldl_max _ 0 hi hhi)
  have hscan : scanTimestamps now ts =
      ⟨lo, hi, (ts.filter (validStamp now)).length⟩ := by
    unfold scanTimestamps
    rw [scan_foldl_eq]
    rw [Nat.zero_add, hlow, hmax]
  unfold calculateRPM
  simp only [hscan]
  rw [if_pos (by omega), if_neg (by omega), if_pos hrange]

theorem calculateRPM_formula_float_witness :
    calculateRPM [1000, 1500, 2000, 2500, 3000] 3000 =
      some ((f32trunc (f32mul (f32div (f32ofNat (([1000, 1500, 2000, 2500, 3000].filter
          (validStamp 3000)).length - 1))
        (f32div (f32ofNat (3000 - 1000)) (f32ofNat 1000))) (f32ofNat 60)) : Int)) :=
  calculateRPM_formula_float [1000, 1500, 2000, 2500, 3000] 3000 1000 3000
    (by decide) (by decide) (by decide) (by decide) (by decide) (by decide) (by decide)

/-! ## Lemmas about the display code -/

theorem lookupBitmap_not_mem (l : List (Nat × Nat)) (c : Nat)
    (h : c ∉ l.map Prod.fst) : lookupBitmap l c = 0 := by
  induction l with
  | nil => rfl
  | cons p rest ih =>
    match p with
    | (ch, bm) =>
      have hne : ch ≠ c := by
        intro he; exact h (by rw [he]; exact List.mem_cons_self _ _)
      have hrest : c ∉ rest.map Prod.fst := fun hm => h (List.mem_cons_of_mem _ hm)
      unfold lookupBitmap
      rw [if_neg hne]
      exact ih hrest

theorem SetupDigitsGo_spec (s : List Nat) :
    ∀ (i : Nat) (buf : List Nat), s.length ≤ buf.length →
      SetupDigitsGo i s buf =
        some (s.map (lookupBitmap CharBitMap) ++ buf.drop s.length,
              (List.range' i s.length).zip (s.map (lookupBitmap CharBitMap))) := by
  induction s with
  | nil => intro i buf _; simp [SetupDigitsGo]
  | cons c s ih =>
    intro i buf hlen
    match buf with
    | [] => simp at hlen
    | b :: buf =>
      have hlen' : s.length ≤ buf.length := by simpa using hlen
      rw [SetupDigitsGo, ih (i + 1) buf hlen']
      simp [List.range'_succ]

theorem SetupDigits_spec (s buf : List Nat) (h : s.length ≤ buf.length) :
    SetupDigits s buf =
      some (s.map (lookupBitmap CharBitMap) ++ buf.drop s.length,
            (List.range s.length).zip (s.map (lookupBitmap CharBitMap))) := by
  unfold SetupDigits
  rw [SetupDigitsGo_spec s 0 buf h, List.range_eq_range']

/-! ## Claim theorems for the display code -/

/-- C6 (counterexample): the character `'x'` (code 120) is absent from the
glyph table and renders as byte `0x00`, which is NOT the blank pattern: the
table assigns `' '` the all-segments-off byte `0xff`, and on this active-low
display `0x00` lights every segment. -/
theorem unknown_char_not_blank :
    lookupBitmap CharBitMap 120 = 0 ∧ lookupBitmap CharBitMap 32 = 255 ∧
    (0 : Nat) ≠ 255 := by
  refine ⟨?_, ?_, ?_⟩ <;> decide

/-- C6 (amended): every character absent from the glyph table renders as the
byte `0x00` (the search variable `i` keeps its initial value) — a definite
value, so the buffer slot is always written and the linear scan terminates
at the table's end marker without any fault; but `0x00` is all segments LIT
on this active-low display, not the blank `0xff` the table assigns to
`' '`. -/
theorem unknown_char_renders_zero (c : Nat) (h : c ∉ CharBitMap.map Prod.fst) :
    lookupBitmap CharBitMap c = 0 :=
  lookupBitmap_not_mem CharBitMap c h

theorem unknown_char_renders_zero_witness :
    (120 ∉ CharBitMap.map Prod.fst) ∧ lookupBitmap CharBitMap 120 = 0 :=
  ⟨by decide, unknown_char_renders_zero 120 (by decide)⟩

/-- C10 (counterexample): a 5-character string cannot be written "into
consecutive entries of the 4-byte display buffer": the fifth write runs past
the end of `DisplayBM` (undefined behaviour, modelled as `none`), so the
claim fails for strings longer than 4 characters. -/
theorem SetupDigits_overflow_five_chars :
    SetupDigits [48, 48, 48, 48, 48] [0, 0, 0, 0] = none := by decide

/-- C10 (amended): for every string of AT MOST 4 characters and the 4-byte
buffer, `SetupDigits` performs exactly one write per character, at
consecutive indices `0, 1, ...` in the order the characters appear (the
write trace is `(range s.length).zip (glyphs of s)`), and the trailing
buffer entries beyond `s.length` keep their previous values. -/
theorem SetupDigits_writes_in_order (s buf : List Nat)
    (hb : buf.length = 4) (hs : s.length ≤ 4) :
    SetupDigits s buf =
      some (s.map (lookupBitmap CharBitMap) ++ buf.drop s.length,
            (List.range s.length).zip (s.map (lookupBitmap CharBitMap))) :=
  SetupDigits_spec s buf (by omega)

theorem SetupDigits_writes_in_order_witness :
    SetupDigits [52, 50] [9, 9, 9, 9] =
      some ([153, 164, 9, 9], [(0, 153), (1, 164)]) := by
  rw [SetupDigits_writes_in_order [52, 50] [9, 9, 9, 9] (by decide) (by decide)]
  rfl

/-- C7: one main-loop iteration re-renders the display buffer (exactly one
`SetupDigits` call) and prints exactly one console line `rpm: <integer>`
exactly when the freshly computed RPM differs from the previously displayed
`oldRpm`; when the RPM is unchanged the buffer and the console stay
untouched (render count 0, no output).  Stated for RPM values the
`sprintf`/display machinery can hold (`0 ≤ rpm < 10000`) and the 4-byte
buffer. -/
theorem loopBody_render_iff_changed (rpm : Int) (st : LoopState)
    (h0 : 0 ≤ rpm) (h1 : rpm < 10000) (h4 : st.displayBM.length = 4) :
    (rpm ≠ st.oldRpm →
      loopBody rpm st =
        some (⟨rpm, (natDigits4 rpm.toNat).map (lookupBitmap CharBitMap),
               (st.cursor + 1) % 256⟩, ["rpm: " ++ toString rpm], 1)) ∧
    (rpm = st.oldRpm →
      loopBody rpm st =
        some (⟨st.oldRpm, st.displayBM, (st.cursor + 1) % 256⟩, [], 0)) := by
  constructor
  · intro hne
    unfold loopBody
    rw [if_neg hne]
    have hsp : sprintfDot4 rpm = some (natDigits4 rpm.toNat) := by
      unfold sprintfDot4; rw [if_pos ⟨h0, h1⟩]
    have hlen : (natDigits4 rpm.toNat).length = 4 := rfl
    have hsd := SetupDigits_spec (natDigits4 rpm.toNat) st.displayBM (by omega)
    have hdrop : st.displayBM.drop (natDigits4 rpm.toNat).length = [] :=
      List.drop_eq_nil_of_le (by omega)
    rw [hdrop, List.append_nil] at hsd
    simp only [hsp, hsd]
  · intro he
    unfold loopBody
    rw [if_pos he]

theorem loopBody_render_iff_changed_witness :
    loopBody 120 ⟨0, [0, 0, 0, 0], 0⟩ =
      some (⟨120, [192, 249, 164, 192], 1⟩, ["rpm: 120"], 1) := by
  have h := (loopBody_render_iff_changed 120 ⟨0, [0, 0, 0, 0], 0⟩
    (by decide) (by decide) (by rfl)).1 (by decide)
  exact h.trans (by decide)

/-- C8 (counterexample): from starting cursor 1, four consecutive
`DisplayDigits()` calls visit the effective positions `1, 2, 3, 0` — not
`0, 1, 2, 3` as the claim asserts for EVERY starting cursor value — and the
first emission is the buffer entry at index 1. -/
theorem tick_order_depends_on_start :
    posTrace 4 1 = [1, 2, 3, 0] ∧ [1, 2, 3, 0] ≠ [0, 1, 2, 3] ∧
    tickTrace [10, 20, 30, 40] 4 1 = [(20, 3), (30, 2), (40, 1), (10, 4)] := by
  refine ⟨?_, ?_, ?_⟩ <;> decide

/-- C8 (amended): for every starting cursor value congruent to 0 mod 4 (in
particular the initial value 0), five consecutive `DisplayDigits()` calls
visit the effective positions `0, 1, 2, 3` and wrap back to `0`, each call
emitting exactly one bitmap+position pair — the buffer entry at
`cursor mod 4` together with the select code `4 - cursor mod 4` — and
advancing the byte cursor by one modulo 256 (the cursor is an 8-bit
`byte`, not an unbounded integer). -/
theorem tick_cycle_from_aligned_cursor (buf : List Nat) (c : Nat) (hc : c % 4 = 0) :
    posTrace 5 c = [0, 1, 2, 3, 0] ∧
    tickTrace buf 5 c =
      [(buf.getD 0 0, 4), (buf.getD 1 0, 3), (buf.getD 2 0, 2),
       (buf.getD 3 0, 1), (buf.getD 0 0, 4)] := by
  have h1 : (c + 1) % 256 % 4 = 1 := by omega
  have h2 : ((c + 1) % 256 + 1) % 256 % 4 = 2 := by omega
  have h3 : (((c + 1) % 256 + 1) % 256 + 1) % 256 % 4 = 3 := by omega
  have h4 : ((((c + 1) % 256 + 1) % 256 + 1) % 256 + 1) % 256 % 4 = 0 := by omega
  constructor
  · show c % 4 :: (c + 1) % 256 % 4 :: ((c + 1) % 256 + 1) % 256 % 4 ::
      (((c + 1) % 256 + 1) % 256 + 1) % 256 % 4 ::
      ((((c + 1) % 256 + 1) % 256 + 1) % 256 + 1) % 256 % 4 :: [] = [0, 1, 2, 3, 0]
    rw [hc, h1, h2, h3, h4]
  · show (buf.getD (c % 4) 0, 4 - c % 4) ::
      (buf.getD ((c + 1) % 256 % 4) 0, 4 - (c + 1) % 256 % 4) ::
      (buf.getD (((c + 1) % 256 + 1) % 256 % 4) 0, 4 - ((c + 1) % 256 + 1) % 256 % 4) ::
      (buf.getD ((((c + 1) % 256 + 1) % 256 + 1) % 256 % 4) 0,
        4 - (((c + 1) % 256 + 1) % 256 + 1) % 256 % 4) ::
      (buf.getD (((((c + 1) % 256 + 1) % 256 + 1) % 256 + 1) % 256 % 4) 0,
        4 - ((((c + 1) % 256 + 1) % 256 + 1) % 256 + 1) % 256 % 4) :: [] =
      [(buf.getD 0 0, 4), (buf.getD 1 0, 3), (buf.getD 2 0, 2),
       (buf.getD 3 0, 1), (buf.getD 0 0, 4)]
    rw [hc, h1, h2, h3, h4]

theorem tick_cycle_from_aligned_cursor_witness :
    posTrace 5 8 = [0, 1, 2, 3, 0] ∧
    tickTrace [5, 6, 7, 8] 5 8 = [(5, 4), (6, 3), (7, 2), (8, 1), (5, 4)] := by
  have h := tick_cycle_from_aligned_cursor [5, 6, 7, 8] 8 (by decide)
  exact ⟨h.1, h.2.trans (by decide)⟩

/-! ## Snapshot atomicity -/

theorem snapshotGo_masked (r : TimestampRing) (n : Nat) :
    ∀ (i : Nat) (sched : List (List Nat)), i + n ≤ r.slots.length →
      snapshotGo true n i r sched = (r.slots.drop i).take n := by
  induction n with
  | zero => intro i sched _; rfl
  | succ n ih =>
    intro i sched h
    have hi : i < r.slots.length := by omega
    simp only [snapshotGo, if_true]
    rw [ih (i + 1) sched.tail (by omega)]
    rw [List.getD_eq_getElem r.slots 0 hi]
    rw [List.drop_eq_getElem_cons hi]
    rw [List.take_succ_cons]

/-- C9: a snapshot taken with the edge interrupt masked (the code brackets
its copy loop in `noInterrupts()`/`interrupts()`) is never torn: whatever
bursts of `rpmInterrupt` arrivals the schedule places between the five slot
reads, the returned copy equals exactly the ring state that existed at the
single point where interrupts were disabled. -/
theorem snapshot_not_torn (r : TimestampRing) (sched : List (List Nat))
    (h : r.slots.length = MAX_STAMPS) :
    snapshotRun true r sched = r.slots := by
  unfold snapshotRun
  rw [snapshotGo_masked r MAX_STAMPS 0 sched (by omega)]
  rw [List.drop_zero]
  rw [show MAX_STAMPS = r.slots.length from h.symm]
  exact List.take_length r.slots

theorem snapshot_not_torn_witness :
    snapshotRun true ⟨[1, 2, 3, 4, 5], 2⟩ [[7], [8, 9]] = [1, 2, 3, 4, 5] :=
  snapshot_not_torn ⟨[1, 2, 3, 4, 5], 2⟩ [[7], [8, 9]] (by rfl)
